import Mathlib

/-!
Verification development for `svm-storage`'s `DefaultPagesStorage`
(`src/crates/svm-storage/src/default/pages_storage.rs`).

The Rust code is generic over a `PageIndexHasher` (a pure function
`hash : Address × PageIndex → [u8; 32]`) and a `KVStore` (offering `get` and a
batched `store`).  We embed the generic code as Lean definitions parametrised
by the hash function and by a `KVStore` record acting on an abstract store
state type `σ`.  Byte vectors are modelled as `List Nat`.
-/

namespace Svm

/-- Modelled from the spec: `svm_common::Address` is an opaque fixed-width
byte identifier (the type lives outside this crate); modelled as a byte
sequence. -/
abbrev Address := List Nat

/-- Modelled from the spec: `PageIndex` is a non-negative integer page number
(32-bit range) defined in `crate::page`, outside this file; modelled as
`Nat`. -/
abbrev PageIndex := Nat

/-- A derived page key, the `[u8; 32]` hash converted to a byte vector. -/
abbrev PageKey := List Nat

/-- A raw byte payload (`Vec<u8>`). -/
abbrev Bytes := List Nat

/-- Modelled from the spec: the `KVStore` trait (defined in `crate::traits`,
outside this file) offers a point lookup `get(key) -> optional bytes` and an
atomic batched `store(batch of (key, bytes) pairs)`.  `σ` is the abstract
state of the underlying store. -/
structure KVStore (σ : Type) where
  get : σ → PageKey → Option Bytes
  store : σ → List (PageKey × Bytes) → σ

/-- Lookup in an association list of `(key, value)` pairs: the value of the
first entry whose key matches. -/
def hmLookup (m : List (PageKey × Bytes)) (k : PageKey) : Option Bytes :=
  match m with
  | [] => none
  | e :: rest => if e.1 = k then some e.2 else hmLookup rest k

/-- Insert/overwrite in an association list, mirroring
`HashMap::insert`: the new pair replaces any existing entry for the key. -/
def hmInsert (m : List (PageKey × Bytes)) (k : PageKey) (v : Bytes) :
    List (PageKey × Bytes) :=
  (k, v) :: m.filter (fun e => e.1 ≠ k)

/-- `DefaultPagesStorage<PH, KV>`: a tenant address, a handle to the
underlying key-value store (its abstract state), and the `uncommitted`
in-memory buffer (`HashMap<Vec<u8>, Vec<u8>>`, modelled as an association
list with unique keys). -/
structure DefaultPagesStorage (σ : Type) where
  addr : Address
  kv : σ
  uncommitted : List (PageKey × Bytes)

variable {σ : Type}

/-- `DefaultPagesStorage::new`: stores the address and the kv handle and
initialises `uncommitted` to an empty map. -/
def DefaultPagesStorage.new (addr : Address) (kv : σ) : DefaultPagesStorage σ :=
  { addr := addr, kv := kv, uncommitted := [] }

/-- `compute_page_hash`: `PH::hash(self.addr, page_idx)`. -/
def compute_page_hash (hash : Address → PageIndex → PageKey)
    (s : DefaultPagesStorage σ) (page_idx : PageIndex) : PageKey :=
  hash s.addr page_idx

/-- `read_page`: computes the page hash and does `self.kv.borrow().get(&ph)`.
The method takes `&mut self` but does not mutate, so the embedding returns
the result paired with the (unchanged) receiver state. -/
def read_page (hash : Address → PageIndex → PageKey) (KV : KVStore σ)
    (s : DefaultPagesStorage σ) (page_idx : PageIndex) :
    Option Bytes × DefaultPagesStorage σ :=
  (KV.get s.kv (compute_page_hash hash s page_idx), s)

/-- `write_page`: computes the page hash and inserts
`ph.to_vec() -> data.to_vec()` into `uncommitted`.  No store access. -/
def write_page (hash : Address → PageIndex → PageKey)
    (s : DefaultPagesStorage σ) (page_idx : PageIndex) (data : Bytes) :
    DefaultPagesStorage σ :=
  { s with
    uncommitted := hmInsert s.uncommitted (compute_page_hash hash s page_idx) data }

/-- `clear`: `self.uncommitted.clear()`. -/
def clear (s : DefaultPagesStorage σ) : DefaultPagesStorage σ :=
  { s with uncommitted := [] }

/-- `commit`: collects the `uncommitted` entries into a batch, calls
`self.kv.borrow_mut().store(changes)` once, then `self.clear()`. -/
def commit (KV : KVStore σ) (s : DefaultPagesStorage σ) :
    DefaultPagesStorage σ :=
  clear { s with kv := KV.store s.kv s.uncommitted }

/-- `uncommitted_len` (test helper): number of pending entries. -/
def uncommitted_len (s : DefaultPagesStorage σ) : Nat :=
  s.uncommitted.length

/-- A key-value store behaves as expected when `get` returns the value last
stored under a key: a key present in the stored batch reads back its batch
value, and a key absent from the batch reads as before the `store` call. -/
structure LawfulKV (KV : KVStore σ) : Prop where
  get_store_mem : ∀ t batch k v, hmLookup batch k = some v →
    KV.get (KV.store t batch) k = some v
  get_store_not_mem : ∀ t batch k, hmLookup batch k = none →
    KV.get (KV.store t batch) k = KV.get t k

/-- A concrete executable store used for witnesses: the state is the history
of stored pairs, newest first; `get` finds the most recent entry. -/
def listKV : KVStore (List (PageKey × Bytes)) where
  get t k := hmLookup t k
  store t batch := batch ++ t

theorem hmLookup_append (m₁ m₂ : List (PageKey × Bytes)) (k : PageKey) :
    hmLookup (m₁ ++ m₂) k =
      match hmLookup m₁ k with
      | some v => some v
      | none => hmLookup m₂ k := by
  induction m₁ with
  | nil => simp [hmLookup]
  | cons e rest ih =>
    by_cases h : e.1 = k <;> simp [hmLookup, h, ih]

theorem listKV_lawful : LawfulKV listKV := by
  constructor
  · intro t batch k v h
    simp [listKV, hmLookup_append, h]
  · intro t batch k h
    simp [listKV, hmLookup_append, h]

theorem hmLookup_hmInsert_self (m : List (PageKey × Bytes)) (k : PageKey)
    (v : Bytes) : hmLookup (hmInsert m k v) k = some v := by
  simp [hmInsert, hmLookup]

theorem hmLookup_filter_ne (m : List (PageKey × Bytes)) (k k' : PageKey)
    (h : k ≠ k') :
    hmLookup (m.filter (fun e => e.1 ≠ k)) k' = hmLookup m k' := by
  induction m with
  | nil => rfl
  | cons e rest ih =>
    rw [List.filter_cons]
    by_cases he : e.1 = k
    · have hf : (decide (e.1 ≠ k)) = false := by simp [he]
      have he' : ¬ e.1 = k' := fun hc => h (he ▸ hc)
      rw [hf, if_neg (by decide)]
      simp only [hmLookup, if_neg he']
      exact ih
    · have hf : (decide (e.1 ≠ k)) = true := by simp [he]
      rw [hf, if_pos rfl]
      by_cases he' : e.1 = k'
      · simp only [hmLookup, if_pos he']
      · simp only [hmLookup, if_neg he']
        exact ih

theorem hmLookup_hmInsert_other (m : List (PageKey × Bytes)) (k k' : PageKey)
    (v : Bytes) (h : k ≠ k') : hmLookup (hmInsert m k v) k' = hmLookup m k' := by
  simp only [hmInsert, hmLookup, h, if_neg]
  exact hmLookup_filter_ne m k k' h

/-- A store instrumented to record the batch-write calls it receives, in
order: its state is the list of batches passed to `store`. -/
def batchLogKV : KVStore (List (List (PageKey × Bytes))) where
  get _ _ := none
  store t batch := t ++ [batch]

/-- A concrete key deriver used for witnesses: prepends the page index to the
tenant address bytes, so distinct (tenant, page) pairs get distinct keys. -/
def consHash (a : Address) (p : PageIndex) : PageKey := p :: a

theorem consHash_inj (a₁ : Address) (p₁ : PageIndex) (a₂ : Address)
    (p₂ : PageIndex) (h : consHash a₁ p₁ = consHash a₂ p₂) :
    a₁ = a₂ ∧ p₁ = p₂ := by
  simp only [consHash, List.cons.injEq] at h
  exact ⟨h.2, h.1⟩

/-- C1: Commit durability — for every page index `p` and payload `d`, after
`write_page p d` and then `commit`, a subsequent `read_page p` returns
`some d`, assuming the store's `get` returns the value last stored under a
key. -/
theorem commit_durability {σ : Type} (hash : Address → PageIndex → PageKey)
    (KV : KVStore σ) (hKV : LawfulKV KV) (s : DefaultPagesStorage σ)
    (p : PageIndex) (d : Bytes) :
    (read_page hash KV (commit KV (write_page hash s p d)) p).1 = some d :=
  hKV.get_store_mem s.kv _ _ d (hmLookup_hmInsert_self s.uncommitted _ d)

theorem commit_durability_witness :
    (read_page consHash listKV
      (commit listKV
        (write_page consHash (DefaultPagesStorage.new [0] []) 0 [1, 2])) 0).1 =
      some [1, 2] :=
  commit_durability consHash listKV listKV_lawful
    (DefaultPagesStorage.new [0] []) 0 [1, 2]

/-- C2: Buffer isolation — after `write_page p d` with no commit,
`read_page p` returns exactly the value the persistent store held for `p`'s
key before the write, and `read_page` returns the receiver unchanged,
leaving the pending buffer as the write left it. -/
theorem read_page_buffer_isolation {σ : Type}
    (hash : Address → PageIndex → PageKey) (KV : KVStore σ)
    (s : DefaultPagesStorage σ) (p : PageIndex) (d : Bytes) :
    (read_page hash KV (write_page hash s p d) p).1 =
      KV.get s.kv (compute_page_hash hash s p) ∧
    (read_page hash KV (write_page hash s p d) p).2 = write_page hash s p d :=
  ⟨rfl, rfl⟩

/-- C3: Rollback — after `write_page p d` followed by `clear`, `read_page p`
returns the same value as before the write, and `clear` leaves the
persistent store's state untouched on every instance. -/
theorem clear_rollback {σ : Type} (hash : Address → PageIndex → PageKey)
    (KV : KVStore σ) (s : DefaultPagesStorage σ) (p : PageIndex) (d : Bytes) :
    (read_page hash KV (clear (write_page hash s p d)) p).1 =
      (read_page hash KV s p).1 ∧
    ∀ t : DefaultPagesStorage σ, (clear t).kv = t.kv :=
  ⟨rfl, fun _ => rfl⟩

/-- C4: Commit unconditionally empties the pending buffer after the store's
batch-write call, for every store implementation (including failing ones)
and every buffer state. -/
theorem commit_empties_buffer {σ : Type} (KV : KVStore σ)
    (s : DefaultPagesStorage σ) : (commit KV s).uncommitted = [] :=
  rfl

/-- C5: Last-write-wins within a buffer — `write_page p d₁`, then
`write_page p d₂`, then `commit` yields `read_page p = some d₂`, assuming
the store's `get` returns the value last stored under a key (the key deriver
is a pure Lean function, hence pure). -/
theorem last_write_wins {σ : Type} (hash : Address → PageIndex → PageKey)
    (KV : KVStore σ) (hKV : LawfulKV KV) (s : DefaultPagesStorage σ)
    (p : PageIndex) (d₁ d₂ : Bytes) :
    (read_page hash KV
      (commit KV (write_page hash (write_page hash s p d₁) p d₂)) p).1 =
      some d₂ :=
  hKV.get_store_mem s.kv _ _ d₂ (hmLookup_hmInsert_self _ _ d₂)

theorem last_write_wins_witness :
    (read_page consHash listKV
      (commit listKV
        (write_page consHash
          (write_page consHash (DefaultPagesStorage.new [0] []) 0 [3]) 0 [4]))
      0).1 = some [4] :=
  last_write_wins consHash listKV listKV_lawful
    (DefaultPagesStorage.new [0] []) 0 [3] [4]

/-- C6: Commit idempotence on an empty buffer — two consecutive commits with
no intervening write leave exactly the state one commit produces, assuming
the store's batch write of an empty batch does not change the store's
state. -/
theorem commit_idempotent_on_empty {σ : Type} (KV : KVStore σ)
    (hE : ∀ t, KV.store t [] = t) (s : DefaultPagesStorage σ) :
    commit KV (commit KV s) = commit KV s := by
  simp [commit, clear, hE]

theorem commit_idempotent_on_empty_witness :
    commit listKV (commit listKV
      (⟨[0], [], [([5], [6])]⟩ : DefaultPagesStorage (List (PageKey × Bytes)))) =
    commit listKV
      (⟨[0], [], [([5], [6])]⟩ : DefaultPagesStorage (List (PageKey × Bytes))) :=
  commit_idempotent_on_empty listKV (fun _ => rfl) ⟨[0], [], [([5], [6])]⟩

/-- C7: Tenant namespacing — for instances freshly constructed with distinct
tenant addresses `a ≠ b` over the same store state, a `write_page` plus
`commit` under `a` never changes what `read_page` returns under `b`,
provided the key deriver maps distinct (tenant, page index) pairs to
distinct keys and the store's `get` returns the value last stored under a
key. -/
theorem tenant_namespacing {σ : Type} (hash : Address → PageIndex → PageKey)
    (KV : KVStore σ) (hKV : LawfulKV KV)
    (hinj : ∀ a₁ p₁ a₂ p₂, hash a₁ p₁ = hash a₂ p₂ → a₁ = a₂ ∧ p₁ = p₂)
    (a b : Address) (hab : a ≠ b) (t : σ) (p : PageIndex) (d : Bytes) :
    (read_page hash KV
      (DefaultPagesStorage.new b
        (commit KV (write_page hash (DefaultPagesStorage.new a t) p d)).kv)
      p).1 =
    (read_page hash KV (DefaultPagesStorage.new b t) p).1 := by
  have hk : hash a p ≠ hash b p := fun hc => hab (hinj a p b p hc).1
  have hnone : hmLookup (hmInsert [] (hash a p) d) (hash b p) = none := by
    simp [hmInsert, hmLookup, hk]
  exact hKV.get_store_not_mem t (hmInsert [] (hash a p) d) (hash b p) hnone

theorem tenant_namespacing_witness :
    (read_page consHash listKV
      (DefaultPagesStorage.new [1]
        (commit listKV
          (write_page consHash (DefaultPagesStorage.new [0] []) 0 [7])).kv)
      0).1 =
    (read_page consHash listKV
      (DefaultPagesStorage.new [1] ([] : List (PageKey × Bytes))) 0).1 :=
  tenant_namespacing consHash listKV listKV_lawful consHash_inj
    [0] [1] (by decide) [] 0 [7]

/-- C8: Write performs no I/O — `write_page p d` leaves the store state and
the tenant address unchanged and always succeeds; its only effect is to
insert/overwrite the entry (derived key → `d`) in the pending buffer. -/
theorem write_page_no_io {σ : Type} (hash : Address → PageIndex → PageKey)
    (s : DefaultPagesStorage σ) (p : PageIndex) (d : Bytes) :
    (write_page hash s p d).kv = s.kv ∧
    (write_page hash s p d).addr = s.addr ∧
    hmLookup (write_page hash s p d).uncommitted
      (compute_page_hash hash s p) = some d ∧
    ∀ k, k ≠ compute_page_hash hash s p →
      hmLookup (write_page hash s p d).uncommitted k =
        hmLookup s.uncommitted k :=
  ⟨rfl, rfl, hmLookup_hmInsert_self s.uncommitted _ d,
    fun k hk => hmLookup_hmInsert_other s.uncommitted _ k d (Ne.symm hk)⟩

theorem write_page_no_io_witness :
    (write_page consHash
      (DefaultPagesStorage.new [0] ([] : List (PageKey × Bytes))) 0 [5]).kv =
      [] ∧
    hmLookup (write_page consHash
      (DefaultPagesStorage.new [0] ([] : List (PageKey × Bytes))) 0
        [5]).uncommitted [0, 0] = some [5] ∧
    hmLookup (write_page consHash
      (DefaultPagesStorage.new [0] ([] : List (PageKey × Bytes))) 0
        [5]).uncommitted [9] = none :=
  ⟨(write_page_no_io consHash (DefaultPagesStorage.new [0] []) 0 [5]).1,
   (write_page_no_io consHash (DefaultPagesStorage.new [0] []) 0 [5]).2.2.1,
   (write_page_no_io consHash (DefaultPagesStorage.new [0] []) 0
     [5]).2.2.2 [9] (by decide)⟩

/-- C9: Clear idempotence — on an instance with an empty pending buffer,
`clear` is a no-op leaving the whole instance (address, store handle,
buffer) unchanged; moreover `clear` after `clear` equals a single `clear`,
and `clear` never changes the store's state. -/
theorem clear_noop_on_empty {σ : Type} (s : DefaultPagesStorage σ)
    (h : s.uncommitted = []) :
    clear s = s ∧ clear (clear s) = clear s ∧ (clear s).kv = s.kv := by
  obtain ⟨a, t, u⟩ := s
  simp only at h
  subst h
  exact ⟨rfl, rfl, rfl⟩

theorem clear_noop_on_empty_witness :
    clear (DefaultPagesStorage.new [0] ([] : List (PageKey × Bytes))) =
      DefaultPagesStorage.new [0] ([] : List (PageKey × Bytes)) ∧
    clear (clear (DefaultPagesStorage.new [0] ([] : List (PageKey × Bytes)))) =
      clear (DefaultPagesStorage.new [0] ([] : List (PageKey × Bytes))) ∧
    (clear (DefaultPagesStorage.new [0] ([] : List (PageKey × Bytes)))).kv =
      [] :=
  clear_noop_on_empty (DefaultPagesStorage.new [0] []) rfl

/-- C10: Every `commit` issues exactly one batch-write call to the store,
whose batch is exactly the buffer's entries — even on an empty buffer: on
the call-logging store the log grows by exactly one entry, the buffer
contents, and generically the post-commit store state is one `store`
application to the pre-state with the buffer as batch. -/
theorem commit_issues_one_batch {σ : Type} (KV : KVStore σ)
    (s : DefaultPagesStorage σ)
    (sl : DefaultPagesStorage (List (List (PageKey × Bytes)))) :
    (commit KV s).kv = KV.store s.kv s.uncommitted ∧
    (commit batchLogKV sl).kv = sl.kv ++ [sl.uncommitted] :=
  ⟨rfl, rfl⟩

end Svm
